import Mathlib

/-!
Verification development for the wanikani-library repository.

The TypeScript sources are embedded shallowly: strings become `List Char`,
JavaScript objects become structures, fallible operations return `Option` or
`Except`, and the network is an explicit oracle argument.  Every definition
is translated from the repository source; definitions whose doc comment says
so model the claim/spec wording instead, for comparison with the code.
-/

set_option maxHeartbeats 1000000

namespace WK

/-! ### Highlighting scan (app/page.tsx `highlightText`, `extractUnknownKanji`) -/

/-- The scan's ideograph test: the regex `[一-龯]` used by
`highlightText` and `extractUnknownKanji`. -/
def isKanjiChar (c : Char) : Bool :=
  decide (0x4E00 ≤ c.toNat ∧ c.toNat ≤ 0x9FAF)

/-- `vocabList.some(word => word.includes(char))`: a character is known iff
some vocabulary entry contains it. -/
def isKnownChar (vocab : List (List Char)) (c : Char) : Bool :=
  vocab.any (fun w => w.contains c)

/-- The `shouldBold` condition of the scan: an ideograph that is unknown and
not yet seen in this call. -/
def shouldBold (vocab : List (List Char)) (seen : List Char) (c : Char) : Bool :=
  isKanjiChar c && !isKnownChar vocab c && !seen.contains c

/-- A character the scan treats as a new-kanji candidate: an ideograph with
no vocabulary entry containing it. -/
def unknownKanji (vocab : List (List Char)) (c : Char) : Bool :=
  isKanjiChar c && !isKnownChar vocab c

/-- An emitted segment: a plain text run or a single highlighted (bolded)
character. -/
inductive Segment where
  | plain : List Char → Segment
  | bold : Char → Segment
deriving DecidableEq

def segText : Segment → List Char
  | Segment.plain s => s
  | Segment.bold c => [c]

def concatSegs (l : List Segment) : List Char :=
  (l.map segText).flatten

def boldChars (l : List Segment) : List Char :=
  l.filterMap (fun s => match s with | Segment.bold c => some c | _ => none)

/-- `if (currentSegment) segments.push(<span>currentSegment</span>)`:
flush the accumulated plain buffer, emitting nothing when it is empty. -/
def flushBuf (buf : List Char) : List Segment :=
  if buf.isEmpty then [] else [Segment.plain buf]

/-- The character loop of `highlightText`: `seen` is the `seenKanji` set,
`buf` the `currentSegment` accumulator. -/
def highlightLoop (vocab : List (List Char)) (seen buf : List Char) :
    List Char → List Segment
  | [] => flushBuf buf
  | c :: rest =>
    if shouldBold vocab seen c then
      flushBuf buf ++ Segment.bold c :: highlightLoop vocab (c :: seen) [] rest
    else
      highlightLoop vocab seen (buf ++ [c]) rest

/-- `highlightText(text)` of app/page.tsx: the emitted segment sequence
(for empty text the component renders nothing, i.e. the empty sequence). -/
def highlightText (vocab : List (List Char)) (text : List Char) : List Segment :=
  highlightLoop vocab [] [] text

/-- First-occurrence deduplication with an explicit seen set; this is the
insertion-order semantics of a JavaScript `Set` built by a left-to-right
scan (`Array.from(new Set(xs))`). -/
def uniqueFirstAux (seen : List Char) : List Char → List Char
  | [] => []
  | c :: rest =>
    if seen.contains c then uniqueFirstAux seen rest
    else c :: uniqueFirstAux (c :: seen) rest

def uniqueFirst (l : List Char) : List Char := uniqueFirstAux [] l

/-- `extractUnknownKanji(text)` of app/page.tsx: all regex matches of
`[一-龯]` in order, deduplicated keeping first occurrences
(`Array.from(new Set(allKanji))`), then filtered to the unknown ones. -/
def extractUnknownKanji (vocab : List (List Char)) (text : List Char) : List Char :=
  (uniqueFirst (text.filter isKanjiChar)).filter (fun c => !isKnownChar vocab c)

/-! ### Kanji set extraction (app/page.tsx / generate route `extractKanjiFromVocab`) -/

/-- The vocabulary extractor's ideograph class: the regex
`[一-龯㐀-䶿]` (CJK Unified Ideographs plus Extension A). -/
def isVocabKanjiChar (c : Char) : Bool :=
  decide ((0x4E00 ≤ c.toNat ∧ c.toNat ≤ 0x9FAF) ∨ (0x3400 ≤ c.toNat ∧ c.toNat ≤ 0x4DBF))

/-- Code-point order on characters; `Array.prototype.sort()` on single-BMP-char
strings sorts by code unit, which on these ranges is code-point order. -/
def charLe (a b : Char) : Prop := a.toNat ≤ b.toNat

instance : DecidableRel charLe :=
  fun a b => inferInstanceAs (Decidable (a.toNat ≤ b.toNat))

instance : IsTotal Char charLe :=
  ⟨fun a b => Nat.le_total a.toNat b.toNat⟩

instance : IsTrans Char charLe :=
  ⟨fun _ _ _ h₁ h₂ => Nat.le_trans h₁ h₂⟩

instance : IsAntisymm Char charLe :=
  ⟨fun a b h₁ h₂ => Char.ofNat_toNat a ▸ Char.ofNat_toNat b ▸
    congrArg Char.ofNat (Nat.le_antisymm h₁ h₂)⟩

/-- `extractKanjiFromVocab(vocab)`: concatenate the entries, keep the
ideographic characters, deduplicate (JS `Set`, first-occurrence order),
sort ascending by code point, and return the joined result. -/
def extractKanjiFromVocab (vocab : List (List Char)) : List Char :=
  List.insertionSort charLe (uniqueFirst ((vocab.flatten).filter isVocabKanjiChar))

/-! ### Progress classification (api/wanikani-kanji/route.ts) -/

/-- A WaniKani subject record as consumed by the route (`id`, `object` kind,
`data.characters`, `data.level`). -/
structure WKSubject where
  id : Nat
  object : List Char
  characters : List Char
  level : Nat
deriving DecidableEq

/-- A WaniKani assignment record (`data.subject_id`, `data.srs_stage`). -/
structure WKAssignment where
  subject_id : Nat
  srs_stage : Nat
deriving DecidableEq

/-- `Map.set` semantics: replacing an existing key keeps its insertion
position, a new key is appended. -/
def mapSet (m : List WKSubject) (s : WKSubject) : List WKSubject :=
  if m.any (fun x => x.id == s.id) then
    m.map (fun x => if x.id == s.id then s else x)
  else m ++ [s]

/-- `const subjectMap = new Map(); for (const subject of subjects) subjectMap.set(subject.id, subject)`. -/
def buildSubjectMap (subjects : List WKSubject) : List WKSubject :=
  subjects.foldl mapSet []

/-- `subjectMap.get(subjectId)`. -/
def mapGetSubject (m : List WKSubject) (i : Nat) : Option WKSubject :=
  m.find? (fun s => s.id == i)

def kanjiKind : List Char := "kanji".toList

/-- One step of the assignment loop: skip when the subject is absent or not
kanji-kind, keep the subject's characters when `srs_stage >= threshold`. -/
def classifyAssignment (t : Nat) (m : List WKSubject) (a : WKAssignment) :
    Option (List Char) :=
  match mapGetSubject m a.subject_id with
  | none => none
  | some s =>
    if s.object = kanjiKind then
      (if t ≤ a.srs_stage then some s.characters else none)
    else none

/-- `Array.from(subjectMap.values()).find(s => s.data.characters === char)`,
then `subject?.data.level || 0`: the level of the first subject in map
insertion order whose characters equal the given string, defaulting to 0. -/
def levelOfChar (m : List WKSubject) (cs : List Char) : Nat :=
  match m.find? (fun s => s.characters == cs) with
  | some s => s.level
  | none => 0

def levelLe (x y : List Char × Nat) : Prop := x.2 ≤ y.2

instance : DecidableRel levelLe :=
  fun x y => inferInstanceAs (Decidable (x.2 ≤ y.2))

instance : IsTotal (List Char × Nat) levelLe :=
  ⟨fun x y => Nat.le_total x.2 y.2⟩

instance : IsTrans (List Char × Nat) levelLe :=
  ⟨fun _ _ _ h₁ h₂ => Nat.le_trans h₁ h₂⟩

/-- The wanikani-kanji POST handler's classification, with the module
constant `KNOWN_THRESHOLD` lifted to the parameter `t`: filter assignments,
pair each kept characters string with its looked-up level, sort ascending by
level (`kanjiWithLevel.sort((a, b) => a.level - b.level)`, a stable sort),
and return the characters. -/
def progressClassifier (t : Nat) (assignments : List WKAssignment)
    (subjects : List WKSubject) : List (List Char) :=
  let m := buildSubjectMap subjects
  let knownKanji := assignments.filterMap (classifyAssignment t m)
  let kanjiWithLevel := knownKanji.map (fun cs => (cs, levelOfChar m cs))
  (List.insertionSort levelLe kanjiWithLevel).map Prod.fst

/-- Modelled from the claim wording for comparison with the code: the
characters of kanji-kind subjects whose assignment stage is at least `t`,
stably sorted ascending by that subject's own level. -/
def claimedClassifier (t : Nat) (assignments : List WKAssignment)
    (subjects : List WKSubject) : List (List Char) :=
  let m := buildSubjectMap subjects
  let qual := assignments.filterMap (fun a =>
    match mapGetSubject m a.subject_id with
    | none => none
    | some s =>
      if s.object = kanjiKind then
        (if t ≤ a.srs_stage then some (s.characters, s.level) else none)
      else none)
  (List.insertionSort levelLe qual).map Prod.fst

/-! ### Retrying API client (api/generate, api/source `callVeniceWithRetry`) -/

/-- The result shape `{ ok, status }` of `callVeniceWithRetry`, extended with
the number of HTTP requests issued (one per loop iteration). -/
structure CallResult where
  ok : Bool
  status : Nat
  calls : Nat
deriving DecidableEq

/-- One upstream attempt: `none` is a transport failure (fetch threw),
`some s` an HTTP response with status `s`; `response.ok` is `200 ≤ s ≤ 299`. -/
def attemptOk (o : Option Nat) : Bool :=
  match o with
  | some s => decide (200 ≤ s ∧ s ≤ 299)
  | none => false

/-- The retry loop of `callVeniceWithRetry`: return on success, fail fast on
4xx other than 429, otherwise retry while `attempt < maxRetries`; the fuel
is the remaining number of loop iterations (`maxRetries + 1 - attempt`). -/
def retryGo (env : Nat → Option Nat) (maxRetries : Nat) (attempt : Nat) :
    Nat → CallResult
  | 0 => ⟨false, 0, 0⟩
  | fuel + 1 =>
    match env attempt with
    | some s =>
      if 200 ≤ s ∧ s ≤ 299 then ⟨true, s, 1⟩
      else if 400 ≤ s ∧ s < 500 ∧ s ≠ 429 then ⟨false, s, 1⟩
      else if attempt < maxRetries then
        let r := retryGo env maxRetries (attempt + 1) fuel
        ⟨r.ok, r.status, r.calls + 1⟩
      else ⟨false, s, 1⟩
    | none =>
      if attempt < maxRetries then
        let r := retryGo env maxRetries (attempt + 1) fuel
        ⟨r.ok, r.status, r.calls + 1⟩
      else ⟨false, 0, 1⟩

/-- `callVeniceWithRetry(apiKey, body, maxRetries)` with the upstream's
answer to the i-th attempt given by `env i`. -/
def callVeniceWithRetry (env : Nat → Option Nat) (maxRetries : Nat) : CallResult :=
  retryGo env maxRetries 0 (maxRetries + 1)

/-- An outcome the claim calls retryable: transport failure, 5xx, or 429. -/
def retryableOutcome (o : Option Nat) : Prop :=
  o = none ∨ ∃ s, o = some s ∧ ((500 ≤ s ∧ s ≤ 599) ∨ s = 429)

/-! ### Paginated fetching (api/wanikani-kanji/route.ts `fetchAllPages`) -/

/-- One upstream page response: HTTP status plus the parsed envelope
(`data` items and `pages.next_url`). -/
structure WKPage (α : Type) where
  status : Nat
  items : List α
  next : Option (List Char)
deriving DecidableEq

inductive WKFetchError where
  | invalidKey
  | upstream (status : Nat)
deriving DecidableEq

/-- The `while (url)` loop of `fetchAllPages`: accumulate `data` until
`pages.next_url` is null; a non-ok status throws (`Invalid API key` on 401,
a generic WaniKani API error otherwise).  The result also counts the
requests issued; `none` means the fuel ran out before the loop did. -/
def fetchAllPagesGo {α : Type} (fetch : List Char → WKPage α) :
    Nat → List Char → Option (Except WKFetchError (List α) × Nat)
  | 0, _ => none
  | fuel + 1, url =>
    let r := fetch url
    if 200 ≤ r.status ∧ r.status ≤ 299 then
      match r.next with
      | none => some (Except.ok r.items, 1)
      | some u2 =>
        match fetchAllPagesGo fetch fuel u2 with
        | none => none
        | some (res, n) => some (res.map (fun its => r.items ++ its), n + 1)
    else if r.status = 401 then some (Except.error WKFetchError.invalidKey, 1)
    else some (Except.error (WKFetchError.upstream r.status), 1)

/-- The claim's fixture shape: starting from `url`, each page answers with
status 200 and carries the next page's locator, except the last whose
locator is null. -/
def isChain {α : Type} (fetch : List Char → WKPage α) :
    List Char → List (List α) → Prop
  | _, [] => True
  | url, its :: rest =>
    match rest with
    | [] => fetch url = ⟨200, its, none⟩
    | _ :: _ => ∃ u2, fetch url = ⟨200, its, some u2⟩ ∧ isChain fetch u2 rest

/-! ### Per-character enrichment (api/kanji/route.ts POST) -/

structure KanjiInfo where
  character : Char
  meanings : List (List Char)
  readings : List (List Char)
deriving DecidableEq

/-- A Jisho sense: `english_definitions` may be absent. -/
structure JishoSense where
  english_definitions : Option (List (List Char))
deriving DecidableEq

/-- A Jisho `japanese` element: `reading` may be absent. -/
structure JishoJapanese where
  reading : Option (List Char)
deriving DecidableEq

/-- A Jisho search result entry: `senses` and `japanese` may be absent. -/
structure JishoEntry where
  senses : Option (List JishoSense)
  japanese : Option (List JishoJapanese)
deriving DecidableEq

/-- The outcome of one character's lookup: the fetch or JSON parse threw,
the response was not ok, or it parsed with `data.data` possibly absent. -/
inductive LookupOutcome where
  | exn
  | notOk
  | okData (entries : Option (List JishoEntry))
deriving DecidableEq

def defNotAvailable : List Char := "Definition not available".toList
def readNotAvailable : List Char := "Reading not available".toList
def errLoadingDef : List Char := "Error loading definition".toList
def errLoadingRead : List Char := "Error loading reading".toList

/-- JS truthiness of an optional string field (`j.reading` filter). -/
def truthyStr (s : Option (List Char)) : Bool :=
  match s with
  | some l => !l.isEmpty
  | none => false

/-- The body of the per-character mapper once a first result exists:
`senses?.flatMap(s => s.english_definitions || []).slice(0,3) || [default]`,
then the final non-empty guards; kun readings filtered to truthy,
capped at 2, with a fallback push when empty. -/
def entryFromFirst (c : Char) (first : JishoEntry) : KanjiInfo :=
  let meanings0 : List (List Char) :=
    match first.senses with
    | some ss =>
      ((ss.map (fun sense => sense.english_definitions.getD [])).flatten).take 3
    | none => [defNotAvailable]
  let meanings := if meanings0.length > 0 then meanings0 else [defNotAvailable]
  let kun : List (List Char) :=
    match first.japanese with
    | some js =>
      ((js.filter (fun j => truthyStr j.reading)).map (fun j => j.reading.getD [])).take 2
    | none => []
  let readings := if kun.isEmpty then [readNotAvailable] else kun
  ⟨c, meanings, readings⟩

/-- One character's resolution, including the per-character catch block
(`exn`) and the not-ok / absent-data placeholder branches. -/
def resolveChar (out : LookupOutcome) (c : Char) : KanjiInfo :=
  match out with
  | LookupOutcome.exn => ⟨c, [errLoadingDef], [errLoadingRead]⟩
  | LookupOutcome.notOk => ⟨c, [defNotAvailable], [readNotAvailable]⟩
  | LookupOutcome.okData none => ⟨c, [defNotAvailable], [readNotAvailable]⟩
  | LookupOutcome.okData (some []) => ⟨c, [defNotAvailable], [readNotAvailable]⟩
  | LookupOutcome.okData (some (first :: _)) => entryFromFirst c first

/-- The kanji POST handler's `Promise.all(kanji.map(...))`: one entry per
requested character, each resolved from that character's own lookup. -/
def kanjiPostEntries (lookup : Char → LookupOutcome) (kanji : List Char) :
    List KanjiInfo :=
  kanji.map (fun c => resolveChar (lookup c) c)

/-! ### Text utilities shared by the source and generate routes -/

/-- The JavaScript whitespace class (regex `\s`, also the set removed by
`String.prototype.trim`). -/
def jsWs (c : Char) : Bool :=
  decide (c.toNat = 32 ∨ c.toNat = 9 ∨ c.toNat = 10 ∨ c.toNat = 13 ∨
    c.toNat = 11 ∨ c.toNat = 12 ∨ c.toNat = 0xA0 ∨ c.toNat = 0x1680 ∨
    (0x2000 ≤ c.toNat ∧ c.toNat ≤ 0x200A) ∨ c.toNat = 0x2028 ∨
    c.toNat = 0x2029 ∨ c.toNat = 0x202F ∨ c.toNat = 0x205F ∨
    c.toNat = 0x3000 ∨ c.toNat = 0xFEFF)

/-- `String.prototype.trim()`. -/
def jsTrim (s : List Char) : List Char :=
  ((s.dropWhile jsWs).reverse.dropWhile jsWs).reverse

/-- Split at the leftmost occurrence of the literal `pat`:
`some (before, after)` with the occurrence removed, `none` when absent. -/
def splitOnFirst (pat : List Char) : List Char → Option (List Char × List Char)
  | [] => if pat.isEmpty then some ([], []) else none
  | c :: rest =>
    if pat.isPrefixOf (c :: rest) then some ([], (c :: rest).drop pat.length)
    else (splitOnFirst pat rest).map (fun p => (c :: p.1, p.2))

/-- ASCII lowering; the `/i` regex flags here only involve ASCII letters. -/
def asciiLower (c : Char) : Char :=
  if decide (65 ≤ c.toNat ∧ c.toNat ≤ 90) then Char.ofNat (c.toNat + 32) else c

/-- Case-insensitive `splitOnFirst` (`pat` given in lowercase). -/
def splitOnFirstCI (pat : List Char) : List Char → Option (List Char × List Char)
  | [] => if pat.isEmpty then some ([], []) else none
  | c :: rest =>
    if ((c :: rest).take pat.length).map asciiLower = pat then
      some ([], (c :: rest).drop pat.length)
    else (splitOnFirstCI pat rest).map (fun p => (c :: p.1, p.2))

def openThink : List Char := "<think>".toList
def closeThink : List Char := "</think>".toList

/-- `content.replace(/<think>[\s\S]*?<\/think>/gi, '')`: repeatedly remove
the leftmost opening delimiter up to the nearest closing delimiter,
resuming after the removed block; an opening tag with no closing tag left
matches nothing.  The fuel is an upper bound on the number of removed
blocks (each consumes at least 15 characters). -/
def stripThinkPairsGo : Nat → List Char → List Char
  | 0, s => s
  | fuel + 1, s =>
    match splitOnFirstCI openThink s with
    | none => s
    | some (pre, rest) =>
      match splitOnFirstCI closeThink rest with
      | none => s
      | some (_, after) => pre ++ stripThinkPairsGo fuel after

def stripThinkPairs (s : List Char) : List Char :=
  stripThinkPairsGo (s.length + 1) s

/-- `content.replace(/<think>[\s\S]*/gi, '')`: drop everything from the
leftmost opening delimiter to the end. -/
def stripUnclosedThink (s : List Char) : List Char :=
  match splitOnFirstCI openThink s with
  | none => s
  | some (pre, _) => pre

/-- The two-pass reasoning-trace stripping of api/source/route.ts (and of the
generate route's translation output): paired blocks removed then trimmed,
then any unterminated opening tag with its tail removed, then trimmed. -/
def stripThink (s : List Char) : List Char :=
  jsTrim (stripUnclosedThink (jsTrim (stripThinkPairs s)))

/-- Modelled from the claim wording for comparison with the code: paired
blocks removed first, then any unterminated opening delimiter together with
everything after it, with no other change to the text. -/
def claimedStripThink (s : List Char) : List Char :=
  stripUnclosedThink (stripThinkPairs s)

/-! ### JSON values and `JSON.parse` (used by the generate route's extractor) -/

/-- A JavaScript JSON value.  Numbers keep their mantissa and exponent
literals (the numeric value itself is only consulted for truthiness;
floating-point underflow of extreme exponents is outside this model). -/
inductive JValue where
  | null
  | jbool (b : Bool)
  | num (mantissa : List Char) (expPart : List Char)
  | str (s : List Char)
  | arr (elems : List JValue)
  | obj (fields : List (List Char × JValue))

def quoteChar : Char := Char.ofNat 34
def backslashChar : Char := Char.ofNat 92
def singleQuoteChar : Char := Char.ofNat 39

def jsonWsChar (c : Char) : Bool :=
  decide (c.toNat = 32 ∨ c.toNat = 9 ∨ c.toNat = 10 ∨ c.toNat = 13)

def skipJsonWs (s : List Char) : List Char := s.dropWhile jsonWsChar

def digitChar (c : Char) : Bool := decide (48 ≤ c.toNat ∧ c.toNat ≤ 57)

def hexVal (c : Char) : Option Nat :=
  if decide (48 ≤ c.toNat ∧ c.toNat ≤ 57) then some (c.toNat - 48)
  else if decide (97 ≤ c.toNat ∧ c.toNat ≤ 102) then some (c.toNat - 87)
  else if decide (65 ≤ c.toNat ∧ c.toNat ≤ 70) then some (c.toNat - 55)
  else none

def jsonEscapeChar (e : Char) : Option Char :=
  if e.toNat = 34 then some (Char.ofNat 34)
  else if e.toNat = 92 then some (Char.ofNat 92)
  else if e.toNat = 47 then some (Char.ofNat 47)
  else if e = 'b' then some (Char.ofNat 8)
  else if e = 'f' then some (Char.ofNat 12)
  else if e = 'n' then some (Char.ofNat 10)
  else if e = 'r' then some (Char.ofNat 13)
  else if e = 't' then some (Char.ofNat 9)
  else none

/-- Parse a JSON string body after its opening quote, returning the decoded
content and the input after the closing quote.  Surrogate recombination of
`\u` escapes is outside this model. -/
def parseJsonStringBody : Nat → List Char → Option (List Char × List Char)
  | 0, _ => none
  | fuel + 1, s =>
    match s with
    | [] => none
    | c :: rest =>
      if c.toNat = 34 then some ([], rest)
      else if c.toNat = 92 then
        match rest with
        | [] => none
        | e :: rest2 =>
          if e = 'u' then
            match rest2 with
            | h1 :: h2 :: h3 :: h4 :: rest3 =>
              match hexVal h1, hexVal h2, hexVal h3, hexVal h4 with
              | some a, some b, some d, some g =>
                (parseJsonStringBody fuel rest3).map
                  (fun p => (Char.ofNat (((a * 16 + b) * 16 + d) * 16 + g) :: p.1, p.2))
              | _, _, _, _ => none
            | _ => none
          else
            match jsonEscapeChar e with
            | some ch => (parseJsonStringBody fuel rest2).map (fun p => (ch :: p.1, p.2))
            | none => none
      else if c.toNat < 32 then none
      else (parseJsonStringBody fuel rest).map (fun p => (c :: p.1, p.2))

def parseFracPart (s : List Char) : Option (List Char × List Char) :=
  match s with
  | c :: r =>
    if c = '.' then
      match r with
      | d :: _ =>
        if digitChar d then some (c :: r.takeWhile digitChar, r.dropWhile digitChar)
        else none
      | [] => none
    else some ([], s)
  | [] => some ([], s)

def parseExpPart (s : List Char) : Option (List Char × List Char) :=
  match s with
  | c :: r =>
    if c = 'e' ∨ c = 'E' then
      match r with
      | d :: rr =>
        if d = '+' ∨ d = '-' then
          match rr with
          | d2 :: _ =>
            if digitChar d2 then some (c :: d :: rr.takeWhile digitChar, rr.dropWhile digitChar)
            else none
          | [] => none
        else if digitChar d then some (c :: r.takeWhile digitChar, r.dropWhile digitChar)
        else none
      | [] => none
    else some ([], s)
  | [] => some ([], s)

def parseJsonNumberLit (s : List Char) : Option (JValue × List Char) :=
  let p :=
    match s with
    | c :: r => if c = '-' then (([c] : List Char), r) else (([] : List Char), s)
    | [] => (([] : List Char), s)
  match p.2 with
  | [] => none
  | c :: r =>
    if c = '0' then
      match parseFracPart r with
      | none => none
      | some (frac, r2) =>
        match parseExpPart r2 with
        | none => none
        | some (ex, r3) => some (JValue.num (p.1 ++ c :: frac) ex, r3)
    else if digitChar c then
      match parseFracPart (r.dropWhile digitChar) with
      | none => none
      | some (frac, r2) =>
        match parseExpPart r2 with
        | none => none
        | some (ex, r3) =>
          some (JValue.num (p.1 ++ c :: (r.takeWhile digitChar ++ frac)) ex, r3)
    else none

mutual

def parseJsonValue : Nat → List Char → Option (JValue × List Char)
  | 0, _ => none
  | fuel + 1, s =>
    match skipJsonWs s with
    | [] => none
    | c :: rest =>
      if c.toNat = 34 then
        (parseJsonStringBody (rest.length + 1) rest).map (fun p => (JValue.str p.1, p.2))
      else if c.toNat = 123 then
        match skipJsonWs rest with
        | d :: rest2 =>
          if d.toNat = 125 then some (JValue.obj [], rest2)
          else
            match parseJsonMembers fuel (d :: rest2) with
            | some (fs, r) => some (JValue.obj fs, r)
            | none => none
        | [] => none
      else if c.toNat = 91 then
        match skipJsonWs rest with
        | d :: rest2 =>
          if d.toNat = 93 then some (JValue.arr [], rest2)
          else
            match parseJsonElements fuel (d :: rest2) with
            | some (es, r) => some (JValue.arr es, r)
            | none => none
        | [] => none
      else if ("true".toList).isPrefixOf (c :: rest) then
        some (JValue.jbool true, (c :: rest).drop 4)
      else if ("false".toList).isPrefixOf (c :: rest) then
        some (JValue.jbool false, (c :: rest).drop 5)
      else if ("null".toList).isPrefixOf (c :: rest) then
        some (JValue.null, (c :: rest).drop 4)
      else parseJsonNumberLit (c :: rest)

def parseJsonMembers : Nat → List Char → Option (List (List Char × JValue) × List Char)
  | 0, _ => none
  | fuel + 1, s =>
    match skipJsonWs s with
    | c :: rest =>
      if c.toNat = 34 then
        match parseJsonStringBody (rest.length + 1) rest with
        | some (name, r1) =>
          match skipJsonWs r1 with
          | d :: r2 =>
            if d.toNat = 58 then
              match parseJsonValue fuel r2 with
              | some (v, r3) =>
                match skipJsonWs r3 with
                | e :: r4 =>
                  if e.toNat = 44 then
                    match parseJsonMembers fuel r4 with
                    | some (fs, r5) => some ((name, v) :: fs, r5)
                    | none => none
                  else if e.toNat = 125 then some ([(name, v)], r4)
                  else none
                | [] => none
              | none => none
            else none
          | [] => none
        | none => none
      else none
    | [] => none

def parseJsonElements : Nat → List Char → Option (List JValue × List Char)
  | 0, _ => none
  | fuel + 1, s =>
    match parseJsonValue fuel s with
    | some (v, r1) =>
      match skipJsonWs r1 with
      | e :: r2 =>
        if e.toNat = 44 then
          match parseJsonElements fuel r2 with
          | some (es, r3) => some (v :: es, r3)
          | none => none
        else if e.toNat = 93 then some ([v], r2)
        else none
      | [] => none
    | none => none

end

/-- `JSON.parse`: parse one value, allow surrounding whitespace, reject
trailing input.  The fuel bound suffices since every recursive call follows
the consumption of at least one input character. -/
def jsonParse (s : List Char) : Option JValue :=
  match parseJsonValue (2 * s.length + 4) s with
  | none => none
  | some (v, rest) => if (skipJsonWs rest).isEmpty then some v else none

/-- JavaScript property lookup on a parsed object: with duplicate keys,
`JSON.parse` keeps the last occurrence. -/
def jLookup (fields : List (List Char × JValue)) (key : List Char) : Option JValue :=
  (fields.reverse.find? (fun f => f.1 == key)).map Prod.snd

/-- JavaScript truthiness of a JSON value. -/
def jsTruthy : JValue → Bool
  | JValue.null => false
  | JValue.jbool b => b
  | JValue.num mantissa _ => mantissa.any (fun c => decide (49 ≤ c.toNat ∧ c.toNat ≤ 57))
  | JValue.str s => !s.isEmpty
  | JValue.arr _ => true
  | JValue.obj _ => true

/-! ### The structured-output extractor (api/generate/route.ts `extractFields`,
`cleanJsonArtifacts`) -/

def fenceMark : List Char := [Char.ofNat 96, Char.ofNat 96, Char.ofNat 96]
def jsonWord : List Char := "json".toList
def japaneseWord : List Char := "japanese".toList
def englishWord : List Char := "english".toList

/-- The code-fence regex: capture between the leftmost fence (after an
optional `json` tag) and the next fence, with surrounding whitespace
absorbed by the greedy `\s*` on each side of the lazy group. -/
def fenceContent (s : List Char) : Option (List Char) :=
  match splitOnFirst fenceMark s with
  | none => none
  | some (_, rest) =>
    let rest2 := if jsonWord.isPrefixOf rest then rest.drop 4 else rest
    match splitOnFirst fenceMark rest2 with
    | none => none
    | some (inner, _) => some (jsTrim inner)

/-- Greedy match of `((?:[^"\\]|\\[\s\S])*)"`: scan to the first unescaped
quote, keeping escape pairs verbatim; no closing quote means no match. -/
def scanQuotedBody : List Char → Option (List Char × List Char)
  | [] => none
  | c :: rest =>
    if c.toNat = 34 then some ([], rest)
    else if c.toNat = 92 then
      match rest with
      | [] => none
      | e :: rest2 => (scanQuotedBody rest2).map (fun p => (c :: e :: p.1, p.2))
    else (scanQuotedBody rest).map (fun p => (c :: p.1, p.2))

/-- Match `"key"\s*:\s*"((?:[^"\\]|\\[\s\S])*)"` anchored at the start of
`s`, returning the capture. -/
def matchQuotedKeyAt (key : List Char) (s : List Char) : Option (List Char) :=
  if (quoteChar :: key ++ [quoteChar]).isPrefixOf s then
    match (s.drop (key.length + 2)).dropWhile jsWs with
    | c :: r2 =>
      if c.toNat = 58 then
        match r2.dropWhile jsWs with
        | d :: r3 =>
          if d.toNat = 34 then (scanQuotedBody r3).map Prod.fst else none
        | [] => none
      else none
    | [] => none
  else none

/-- Leftmost match of the quoted-field regex over the whole input. -/
def regexQuotedField (key : List Char) : List Char → Option (List Char)
  | [] => none
  | c :: rest =>
    match matchQuotedKeyAt key (c :: rest) with
    | some b => some b
    | none => regexQuotedField key rest

/-- Match the truncation-fallback regex `"key"\s*:\s*"([^"]*)` anchored at
the start of `s`. -/
def matchTruncatedAt (key : List Char) (s : List Char) : Option (List Char) :=
  if (quoteChar :: key ++ [quoteChar]).isPrefixOf s then
    match (s.drop (key.length + 2)).dropWhile jsWs with
    | c :: r2 =>
      if c.toNat = 58 then
        match r2.dropWhile jsWs with
        | d :: r3 =>
          if d.toNat = 34 then some (r3.takeWhile (fun x => x.toNat ≠ 34)) else none
        | [] => none
      else none
    | [] => none
  else none

def regexTruncatedField (key : List Char) : List Char → Option (List Char)
  | [] => none
  | c :: rest =>
    match matchTruncatedAt key (c :: rest) with
    | some b => some b
    | none => regexTruncatedField key rest

/-- One global two-character replacement, left to right, non-overlapping. -/
def replacePair (a b r : Char) : List Char → List Char
  | [] => []
  | [c] => [c]
  | c :: d :: rest =>
    if c = a ∧ d = b then r :: replacePair a b r rest
    else c :: replacePair a b r (d :: rest)

/-- The unescaping chain `.replace(/\\n/g,'\n').replace(/\\"/g,'"').replace(/\\\\/g,'\\')`. -/
def unescapeJs (s : List Char) : List Char :=
  replacePair backslashChar backslashChar backslashChar
    (replacePair backslashChar quoteChar quoteChar
      (replacePair backslashChar 'n' (Char.ofNat 10) s))

def dropOptQuote (s : List Char) : List Char :=
  match s with
  | c :: rest => if c = quoteChar ∨ c = singleQuoteChar then rest else s
  | [] => s

/-- Case-insensitive literal test at the start of `s` (`pat` lowercase). -/
def ciStarts (pat : List Char) (s : List Char) : Bool :=
  ((s.take pat.length).map asciiLower) == pat

/-- The anchored first replacement of `cleanJsonArtifacts`
(strip a `{ "japanese": "` style prefix); returns the rest on a match. -/
def matchClean1 (s : List Char) : Option (List Char) :=
  match s.dropWhile jsWs with
  | c :: r2 =>
    if c.toNat = 123 then
      let r4 := dropOptQuote (r2.dropWhile jsWs)
      if ciStarts japaneseWord r4 then
        match (dropOptQuote (r4.drop 8)).dropWhile jsWs with
        | d :: r8 =>
          if d.toNat = 58 then some (dropOptQuote (r8.dropWhile jsWs))
          else none
        | [] => none
      else none
    else none
  | [] => none

def cleanStep1 (s : List Char) : List Char := (matchClean1 s).getD s

/-- Does the `, "english": …`-to-end pattern match at this position? -/
def matchClean2At (s : List Char) : Bool :=
  match (dropOptQuote s).dropWhile jsWs with
  | c :: r3 =>
    if c.toNat = 44 then
      let r5 := dropOptQuote (r3.dropWhile jsWs)
      if ciStarts englishWord r5 then
        match (dropOptQuote (r5.drop 7)).dropWhile jsWs with
        | d :: _ => d.toNat = 58
        | [] => false
      else false
    else false
  | [] => false

/-- Delete from the leftmost match of the trailing-english pattern to the
end (the regex ends in `[\s\S]*$`). -/
def cleanStep2 : List Char → List Char
  | [] => []
  | c :: rest => if matchClean2At (c :: rest) then [] else c :: cleanStep2 rest

/-- Does the trailing `"}\s*$` pattern match at this position? -/
def matchClean3At (s : List Char) : Bool :=
  match (dropOptQuote s).dropWhile jsWs with
  | c :: r3 => c.toNat = 125 && (r3.dropWhile jsWs).isEmpty
  | [] => false

def cleanStep3 : List Char → List Char
  | [] => []
  | c :: rest => if matchClean3At (c :: rest) then [] else c :: cleanStep3 rest

/-- `cleanJsonArtifacts(content)`: the three replacements followed by
`.trim()`. -/
def cleanJsonArtifacts (s : List Char) : List Char :=
  jsTrim (cleanStep3 (cleanStep2 (cleanStep1 s)))

def placeholderEnglishText : List Char := "Translation not available".toList

/-- `if (parsed.japanese) return { japanese: parsed.japanese, english:
parsed.english || '' }` on a parsed JSON value; `none` when the value is no
object, lacks the field, or the field is falsy (for a parsed `null` the
property access throws into the same catch, with the same continuation). -/
def jsonFieldPair (v : JValue) : Option (JValue × JValue) :=
  match v with
  | JValue.obj fields =>
    match jLookup fields japaneseWord with
    | some jp =>
      if jsTruthy jp then
        some (jp,
          match jLookup fields englishWord with
          | some en => if jsTruthy en then en else JValue.str []
          | none => JValue.str [])
      else none
    | none => none
  | _ => none

/-- Strategies 3 and 4 of `extractFields`: regex extraction of the quoted
fields with unescaping, then the truncation fallback. -/
def regexStrategies (content : List Char) : Option (JValue × JValue) :=
  match regexQuotedField japaneseWord content with
  | some jpRaw =>
    some (JValue.str (unescapeJs jpRaw),
      JValue.str (match regexQuotedField englishWord content with
        | some enRaw => unescapeJs enRaw
        | none => []))
  | none =>
    match regexTruncatedField japaneseWord content with
    | some jp => some (JValue.str jp, JValue.str [])
    | none => none

/-- Strategy 2 (whole-input parse) with fall-through to the regex
strategies; a parse exception or a falsy `japanese` field both continue
there. -/
def tryWholeParse (content : List Char) : Option (JValue × JValue) :=
  match jsonParse content with
  | some v =>
    match jsonFieldPair v with
    | some pr => some pr
    | none => regexStrategies content
  | none => regexStrategies content

/-- `extractFields(content)`: fenced-block parse first (a throw inside the
`try`, including the property access on a parsed `null`, skips the
whole-input parse and goes to the regex strategies), then the whole-input
parse, then the regex strategies. -/
def extractFields (content : List Char) : Option (JValue × JValue) :=
  match fenceContent content with
  | some inner =>
    match jsonParse inner with
    | none => regexStrategies content
    | some JValue.null => regexStrategies content
    | some v =>
      match jsonFieldPair v with
      | some pr => some pr
      | none => tryWholeParse content
  | none => tryWholeParse content

/-- The generate route's parsing epilogue: on extraction success the
secondary falls back to the placeholder when falsy
(`english = extracted.english || 'Translation not available'`); when every
strategy failed, the primary is `cleanJsonArtifacts(rawContent)` and the
secondary is the placeholder. -/
def parseModelOutput (raw : List Char) : JValue × JValue :=
  match extractFields raw with
  | some (jp, en) => (jp, if jsTruthy en then en else JValue.str placeholderEnglishText)
  | none => (JValue.str (cleanJsonArtifacts raw), JValue.str placeholderEnglishText)

def emptyNewsError : List Char := "No news content retrieved".toList

/-- The topic branch of the source POST handler after a successful upstream
call with model text `modelContent`: strip the reasoning trace and fail
with the empty-content error when nothing remains. -/
def acquireTopicSource (modelContent : List Char) :
    Except (List Char) (List Char) :=
  let sourceContent := stripThink modelContent
  if sourceContent.isEmpty then Except.error emptyNewsError
  else Except.ok sourceContent

/-! ## Lemmas about the highlighting scan -/

theorem concatSegs_append (l₁ l₂ : List Segment) :
    concatSegs (l₁ ++ l₂) = concatSegs l₁ ++ concatSegs l₂ := by
  simp [concatSegs]

theorem concatSegs_flushBuf (buf : List Char) :
    concatSegs (flushBuf buf) = buf := by
  unfold flushBuf
  split
  · simp_all [concatSegs, List.isEmpty_iff]
  · simp [concatSegs, segText]

theorem boldChars_append (l₁ l₂ : List Segment) :
    boldChars (l₁ ++ l₂) = boldChars l₁ ++ boldChars l₂ := by
  simp [boldChars]

theorem boldChars_flushBuf (buf : List Char) :
    boldChars (flushBuf buf) = [] := by
  unfold flushBuf
  split <;> simp [boldChars]

theorem shouldBold_eq (vocab : List (List Char)) (seen : List Char) (c : Char) :
    shouldBold vocab seen c = (unknownKanji vocab c && !seen.contains c) := by
  simp [shouldBold, unknownKanji, Bool.and_assoc]

theorem concatSegs_cons (s : Segment) (l : List Segment) :
    concatSegs (s :: l) = segText s ++ concatSegs l := rfl

theorem concat_highlightLoop (vocab : List (List Char)) :
    ∀ (t seen buf : List Char),
      concatSegs (highlightLoop vocab seen buf t) = buf ++ t := by
  intro t
  induction t with
  | nil => intro seen buf; simp [highlightLoop, concatSegs_flushBuf]
  | cons c rest ih =>
    intro seen buf
    by_cases h : shouldBold vocab seen c = true
    · rw [highlightLoop, if_pos h, concatSegs_append, concatSegs_flushBuf,
        concatSegs_cons, ih]
      simp [segText]
    · rw [highlightLoop, if_neg h, ih]
      simp

theorem boldChars_highlightLoop (vocab : List (List Char)) :
    ∀ (t seen buf : List Char),
      boldChars (highlightLoop vocab seen buf t) =
        uniqueFirstAux seen (t.filter (unknownKanji vocab)) := by
  intro t
  induction t with
  | nil => intro seen buf; simp [highlightLoop, boldChars_flushBuf, uniqueFirstAux]
  | cons c rest ih =>
    intro seen buf
    by_cases hk : unknownKanji vocab c = true
    · by_cases hs : seen.contains c = true
      · have hb : shouldBold vocab seen c = false := by
          rw [shouldBold_eq, hk, hs]; rfl
        rw [highlightLoop, if_neg (by simp [hb]), ih, List.filter_cons,
          if_pos hk]
        rw [uniqueFirstAux, if_pos hs]
      · have hb : shouldBold vocab seen c = true := by
          rw [shouldBold_eq, hk, Bool.eq_false_iff.mpr hs]; rfl
        rw [highlightLoop, if_pos hb, boldChars_append, boldChars_flushBuf,
          show boldChars (Segment.bold c :: highlightLoop vocab (c :: seen) [] rest)
            = c :: boldChars (highlightLoop vocab (c :: seen) [] rest) from rfl,
          ih, List.filter_cons, if_pos hk, uniqueFirstAux, if_neg hs]
        simp
    · have hb : shouldBold vocab seen c = false := by
        rw [shouldBold_eq]
        simp [hk]
      rw [highlightLoop, if_neg (by simp [hb]), ih, List.filter_cons,
        if_neg (by simp [hk])]

theorem mem_uniqueFirstAux :
    ∀ (l seen : List Char) (c : Char),
      c ∈ uniqueFirstAux seen l ↔ (c ∈ l ∧ c ∉ seen) := by
  intro l
  induction l with
  | nil => intro seen c; simp [uniqueFirstAux]
  | cons a rest ih =>
    intro seen c
    by_cases ha : seen.contains a = true
    · have ha' : a ∈ seen := List.elem_iff.mp ha
      rw [uniqueFirstAux, if_pos ha, ih]
      constructor
      · rintro ⟨h1, h2⟩
        exact ⟨List.mem_cons_of_mem _ h1, h2⟩
      · rintro ⟨h1, h2⟩
        rcases List.mem_cons.mp h1 with rfl | h1
        · exact absurd ha' h2
        · exact ⟨h1, h2⟩
    · have ha' : a ∉ seen := fun hmem => ha (List.elem_iff.mpr hmem)
      rw [uniqueFirstAux, if_neg ha]
      by_cases hc : c = a
      · subst hc
        simp [ha']
      · constructor
        · intro h
          rcases List.mem_cons.mp h with h | h
          · exact absurd h hc
          · have h' := (ih (a :: seen) c).mp h
            exact ⟨List.mem_cons_of_mem _ h'.1,
              fun hm => h'.2 (List.mem_cons_of_mem _ hm)⟩
        · rintro ⟨h1, h2⟩
          rcases List.mem_cons.mp h1 with rfl | h1
          · exact absurd rfl hc
          · exact List.mem_cons_of_mem _ ((ih (a :: seen) c).mpr
              ⟨h1, fun hm => (List.mem_cons.mp hm).elim hc h2⟩)

theorem nodup_uniqueFirstAux :
    ∀ (l seen : List Char), (uniqueFirstAux seen l).Nodup := by
  intro l
  induction l with
  | nil => intro seen; simp [uniqueFirstAux]
  | cons a rest ih =>
    intro seen
    by_cases ha : seen.contains a = true
    · rw [uniqueFirstAux, if_pos ha]
      exact ih seen
    · rw [uniqueFirstAux, if_neg ha]
      refine List.nodup_cons.mpr ⟨?_, ih (a :: seen)⟩
      intro hmem
      exact ((mem_uniqueFirstAux rest (a :: seen) a).mp hmem).2
        (List.mem_cons_self _ _)

theorem uniqueFirstAux_congr :
    ∀ (l seen₁ seen₂ : List Char),
      (∀ x ∈ l, (x ∈ seen₁ ↔ x ∈ seen₂)) →
      uniqueFirstAux seen₁ l = uniqueFirstAux seen₂ l := by
  intro l
  induction l with
  | nil => intro _ _ _; rfl
  | cons a rest ih =>
    intro seen₁ seen₂ h
    have hmem : a ∈ seen₁ ↔ a ∈ seen₂ := h a (List.mem_cons_self _ _)
    by_cases ha : seen₁.contains a = true
    · have ha2 : seen₂.contains a = true :=
        List.elem_iff.mpr (hmem.mp (List.elem_iff.mp ha))
      rw [uniqueFirstAux, if_pos ha, uniqueFirstAux, if_pos ha2]
      exact ih _ _ (fun x hx => h x (List.mem_cons_of_mem _ hx))
    · have ha2 : seen₂.contains a ≠ true := fun hc =>
        ha (List.elem_iff.mpr (hmem.mpr (List.elem_iff.mp hc)))
      rw [uniqueFirstAux, if_neg ha, uniqueFirstAux, if_neg ha2]
      congr 1
      refine ih (a :: seen₁) (a :: seen₂) (fun x hx => ?_)
      simp only [List.mem_cons]
      exact or_congr Iff.rfl (h x (List.mem_cons_of_mem _ hx))

theorem filter_uniqueFirstAux (p : Char → Bool) :
    ∀ (l seen : List Char),
      (uniqueFirstAux seen l).filter p = uniqueFirstAux seen (l.filter p) := by
  intro l
  induction l with
  | nil => intro seen; rfl
  | cons a rest ih =>
    intro seen
    by_cases hp : p a = true
    · by_cases ha : seen.contains a = true
      · rw [uniqueFirstAux, if_pos ha, List.filter_cons, if_pos hp,
          uniqueFirstAux, if_pos ha, ih]
      · rw [uniqueFirstAux, if_neg ha, List.filter_cons, if_pos hp,
          List.filter_cons, if_pos hp, uniqueFirstAux, if_neg ha, ih]
    · by_cases ha : seen.contains a = true
      · rw [uniqueFirstAux, if_pos ha, List.filter_cons, if_neg (by simp [hp]),
          ih]
      · rw [uniqueFirstAux, if_neg ha, List.filter_cons,
          if_neg (by simp [hp]), List.filter_cons, if_neg (by simp [hp]), ih]
        refine uniqueFirstAux_congr _ _ _ (fun x hx => ?_)
        have hpx : p x = true := List.of_mem_filter hx
        have hxa : x ≠ a := fun he => by rw [he] at hpx; exact (by simp [hp] : ¬p a = true) hpx
        simp [List.mem_cons, hxa]

theorem uniqueFirstAux_eq_self :
    ∀ (l seen : List Char), l.Nodup → (∀ x ∈ l, x ∉ seen) →
      uniqueFirstAux seen l = l := by
  intro l
  induction l with
  | nil => intro seen _ _; rfl
  | cons a rest ih =>
    intro seen hnd hdisj
    have ha : seen.contains a ≠ true := fun hc =>
      hdisj a (List.mem_cons_self _ _) (List.elem_iff.mp hc)
    rw [uniqueFirstAux, if_neg ha]
    congr 1
    refine ih (a :: seen) (List.nodup_cons.mp hnd).2 ?_
    intro x hx hmem
    rcases List.mem_cons.mp hmem with rfl | hmem2
    · exact (List.nodup_cons.mp hnd).1 hx
    · exact hdisj x (List.mem_cons_of_mem _ hx) hmem2

theorem bold_mem_iff (l : List Segment) (c : Char) :
    Segment.bold c ∈ l ↔ c ∈ boldChars l := by
  rw [boldChars, List.mem_filterMap]
  constructor
  · intro h
    exact ⟨Segment.bold c, h, rfl⟩
  · rintro ⟨s, hs, hmatch⟩
    cases s with
    | plain t => simp at hmatch
    | bold d =>
      simp only [Option.some.injEq] at hmatch
      cases hmatch
      exact hs

theorem boldChars_highlightText (vocab : List (List Char)) (text : List Char) :
    boldChars (highlightText vocab text) =
      uniqueFirst (text.filter (unknownKanji vocab)) :=
  boldChars_highlightLoop vocab text [] []

theorem highlightLoop_first_occurrence (vocab : List (List Char)) :
    ∀ (p : List Char) (c : Char) (q seen buf : List Char),
      unknownKanji vocab c = true → c ∉ p → seen.contains c = false →
      ∃ s₁ s₂, highlightLoop vocab seen buf (p ++ c :: q) =
        s₁ ++ Segment.bold c :: s₂ ∧ concatSegs s₁ = buf ++ p := by
  intro p
  induction p with
  | nil =>
    intro c q seen buf hu _ hs
    have hb : shouldBold vocab seen c = true := by
      rw [shouldBold_eq, hu, hs]; rfl
    refine ⟨flushBuf buf, highlightLoop vocab (c :: seen) [] q, ?_, ?_⟩
    · rw [List.nil_append, highlightLoop, if_pos hb]
    · rw [concatSegs_flushBuf]; simp
  | cons x p' ih =>
    intro c q seen buf hu hp hs
    have hcx : c ≠ x := fun h => hp (h ▸ List.mem_cons_self _ _)
    have hp' : c ∉ p' := fun h => hp (List.mem_cons_of_mem _ h)
    by_cases hbx : shouldBold vocab seen x = true
    · have hs' : (x :: seen).contains c = false := by
        show (c == x || seen.contains c) = false
        rw [hs]
        simp [hcx]
      obtain ⟨s₁, s₂, heq, hcat⟩ := ih c q (x :: seen) [] hu hp' hs'
      refine ⟨flushBuf buf ++ Segment.bold x :: s₁, s₂, ?_, ?_⟩
      · rw [List.cons_append, highlightLoop, if_pos hbx, heq]
        simp
      · rw [concatSegs_append, concatSegs_flushBuf, concatSegs_cons, hcat]
        simp [segText]
    · obtain ⟨s₁, s₂, heq, hcat⟩ := ih c q seen (buf ++ [x]) hu hp' hs
      refine ⟨s₁, s₂, ?_, ?_⟩
      · rw [List.cons_append, highlightLoop, if_neg hbx, heq]
      · rw [hcat]; simp

/-! ## Claim theorems: highlighting -/

/-- C1: for every input text and vocabulary list, the highlighting scan
emits segments whose concatenation reproduces the input exactly; the
highlighted characters are exactly the distinct unknown ideographs of the
text (ideograph = the scan's class U+4E00–U+9FAF), each exactly once, in
first-occurrence order, and each highlighted at its first occurrence; known
ideographs and non-ideograph characters are never highlighted. -/
theorem c1_highlight_segments (vocab : List (List Char)) (text : List Char) :
    concatSegs (highlightText vocab text) = text ∧
    boldChars (highlightText vocab text) =
      uniqueFirst (text.filter (unknownKanji vocab)) ∧
    (boldChars (highlightText vocab text)).Nodup ∧
    (∀ c, c ∈ boldChars (highlightText vocab text) ↔
      (c ∈ text ∧ unknownKanji vocab c = true)) ∧
    (∀ (p : List Char) (c : Char) (q : List Char),
      text = p ++ c :: q → unknownKanji vocab c = true → c ∉ p →
      ∃ s₁ s₂, highlightText vocab text = s₁ ++ Segment.bold c :: s₂ ∧
        concatSegs s₁ = p) := by
  refine ⟨concat_highlightLoop vocab text [] [],
    boldChars_highlightText vocab text, ?_, ?_, ?_⟩
  · rw [boldChars_highlightText vocab text]
    exact nodup_uniqueFirstAux _ _
  · intro c
    rw [boldChars_highlightText vocab text, uniqueFirst, mem_uniqueFirstAux]
    simp [List.mem_filter]
  · intro p c q hdecomp hu hp
    subst hdecomp
    exact highlightLoop_first_occurrence vocab p c q [] [] hu hp rfl

/-- Witness for C1 on the text U+4E00, `a`, U+4E00 with an empty
vocabulary: the concatenation law holds and the unknown ideograph is
highlighted at its first occurrence. -/
theorem c1_highlight_segments_witness :
    concatSegs (highlightText [] [Char.ofNat 0x4E00, 'a', Char.ofNat 0x4E00]) =
      [Char.ofNat 0x4E00, 'a', Char.ofNat 0x4E00] ∧
    ∃ s₁ s₂,
      highlightText [] [Char.ofNat 0x4E00, 'a', Char.ofNat 0x4E00] =
        s₁ ++ Segment.bold (Char.ofNat 0x4E00) :: s₂ ∧ concatSegs s₁ = [] := by
  refine ⟨(c1_highlight_segments [] _).1, ?_⟩
  exact (c1_highlight_segments [] _).2.2.2.2 [] (Char.ofNat 0x4E00)
    ['a', Char.ofNat 0x4E00] rfl (by decide) (by decide)

/-- C9: the characters highlighted by `highlightText` are exactly, and in
the same (first-occurrence) order as, the list produced by
`extractUnknownKanji` on the same text and vocabulary. -/
theorem c9_highlight_equals_extract (vocab : List (List Char)) (text : List Char) :
    boldChars (highlightText vocab text) = extractUnknownKanji vocab text := by
  rw [boldChars_highlightText vocab text]
  unfold extractUnknownKanji uniqueFirst
  rw [filter_uniqueFirstAux]
  congr 1
  rw [List.filter_filter]
  refine List.filter_congr (fun x _ => ?_)
  simp [unknownKanji, Bool.and_comm]

/-- C10: `highlightText` only ever highlights characters in U+4E00–U+9FAF;
a CJK Extension A character (U+3400–U+4DBF) is never highlighted even when
unknown, although `extractKanjiFromVocab` does treat that block as
ideographic. -/
theorem c10_extension_a_never_highlighted (vocab : List (List Char))
    (text : List Char) (c : Char) :
    (Segment.bold c ∈ highlightText vocab text →
      0x4E00 ≤ c.toNat ∧ c.toNat ≤ 0x9FAF) ∧
    (0x3400 ≤ c.toNat → c.toNat ≤ 0x4DBF →
      Segment.bold c ∉ highlightText vocab text) ∧
    (0x3400 ≤ c.toNat → c.toNat ≤ 0x4DBF → isVocabKanjiChar c = true) ∧
    (0x3400 ≤ c.toNat → c.toNat ≤ 0x4DBF → isKnownChar vocab c = false →
      extractKanjiFromVocab [[c]] = [c]) := by
  have hrange : Segment.bold c ∈ highlightText vocab text →
      0x4E00 ≤ c.toNat ∧ c.toNat ≤ 0x9FAF := by
    intro h
    rw [bold_mem_iff, boldChars_highlightText vocab text, uniqueFirst,
      mem_uniqueFirstAux] at h
    have hu : unknownKanji vocab c = true := (List.mem_filter.mp h.1).2
    have hk : isKanjiChar c = true := by
      rw [unknownKanji, Bool.and_eq_true] at hu
      exact hu.1
    simpa [isKanjiChar] using hk
  refine ⟨hrange, ?_, ?_, ?_⟩
  · intro hlo hhi hmem
    have := hrange hmem
    omega
  · intro hlo hhi
    simp [isVocabKanjiChar]
    omega
  · intro hlo hhi _
    have hvc : isVocabKanjiChar c = true := by
      simp [isVocabKanjiChar]
      omega
    unfold extractKanjiFromVocab
    rw [show ([[c]] : List (List Char)).flatten = [c] by simp]
    rw [List.filter_cons, if_pos hvc]
    rfl

/-- Witness for C10 at the Extension A character U+3400: it is never
highlighted even though no vocabulary entry contains it, yet the vocabulary
extractor keeps it. -/
theorem c10_extension_a_never_highlighted_witness :
    Segment.bold (Char.ofNat 0x3400) ∉ highlightText [] [Char.ofNat 0x3400] ∧
    extractKanjiFromVocab [[Char.ofNat 0x3400]] = [Char.ofNat 0x3400] := by
  refine ⟨(c10_extension_a_never_highlighted [] [Char.ofNat 0x3400]
      (Char.ofNat 0x3400)).2.1 (by decide) (by decide),
    (c10_extension_a_never_highlighted [] [Char.ofNat 0x3400]
      (Char.ofNat 0x3400)).2.2.2 (by decide) (by decide) (by decide)⟩

/-! ## Claim theorems: kanji set extraction -/

/-- C8: `extractKanjiFromVocab` returns exactly the ideographic characters
(CJK Unified Ideographs or Extension A) of the concatenated input,
deduplicated, sorted ascending by code point; the output is empty for an
empty or non-ideographic input; and the extractor is idempotent. -/
theorem c8_kanji_set_extractor (vocab : List (List Char)) :
    (∀ c, c ∈ extractKanjiFromVocab vocab ↔
      (c ∈ vocab.flatten ∧ isVocabKanjiChar c = true)) ∧
    (extractKanjiFromVocab vocab).Nodup ∧
    (extractKanjiFromVocab vocab).Pairwise charLe ∧
    extractKanjiFromVocab [] = [] ∧
    ((∀ c ∈ vocab.flatten, isVocabKanjiChar c = false) →
      extractKanjiFromVocab vocab = []) ∧
    extractKanjiFromVocab [extractKanjiFromVocab vocab] =
      extractKanjiFromVocab vocab := by
  have hperm := List.perm_insertionSort charLe
    (uniqueFirst ((vocab.flatten).filter isVocabKanjiChar))
  have hmem : ∀ c, c ∈ extractKanjiFromVocab vocab ↔
      (c ∈ vocab.flatten ∧ isVocabKanjiChar c = true) := by
    intro c
    rw [extractKanjiFromVocab, hperm.mem_iff, uniqueFirst, mem_uniqueFirstAux]
    simp only [List.mem_filter, List.mem_flatten, List.not_mem_nil,
      not_false_iff, and_true]
  have hnd : (extractKanjiFromVocab vocab).Nodup := by
    rw [extractKanjiFromVocab]
    exact hperm.nodup_iff.mpr (nodup_uniqueFirstAux _ _)
  have hsorted : (extractKanjiFromVocab vocab).Pairwise charLe :=
    List.sorted_insertionSort charLe _
  refine ⟨hmem, hnd, hsorted, rfl, ?_, ?_⟩
  · intro hall
    rw [extractKanjiFromVocab,
      List.filter_eq_nil_iff.mpr (fun a ha => by simp [hall a ha])]
    rfl
  · have hfix : (extractKanjiFromVocab vocab).filter isVocabKanjiChar =
        extractKanjiFromVocab vocab :=
      List.filter_eq_self.mpr (fun a ha => ((hmem a).mp ha).2)
    rw [show extractKanjiFromVocab [extractKanjiFromVocab vocab]
        = List.insertionSort charLe (uniqueFirst
            (([extractKanjiFromVocab vocab] : List (List Char)).flatten.filter
              isVocabKanjiChar)) from rfl]
    rw [show ([extractKanjiFromVocab vocab] : List (List Char)).flatten
        = extractKanjiFromVocab vocab from by simp]
    rw [hfix, uniqueFirst,
      uniqueFirstAux_eq_self _ [] hnd (fun x _ hx => List.not_mem_nil x hx)]
    exact List.eq_of_perm_of_sorted (List.perm_insertionSort charLe _)
      (List.sorted_insertionSort charLe _) hsorted

/-- Witness for C8: a non-ideographic entry yields the empty set, and the
extractor is idempotent on the spec example. -/
theorem c8_kanji_set_extractor_witness :
    extractKanjiFromVocab [("hello".toList)] = [] ∧
    extractKanjiFromVocab
      [extractKanjiFromVocab ["九".toList, "二".toList, "hello".toList]] =
      extractKanjiFromVocab ["九".toList, "二".toList, "hello".toList] :=
  ⟨(c8_kanji_set_extractor [("hello".toList)]).2.2.2.2.1 (by decide),
    (c8_kanji_set_extractor
      ["九".toList, "二".toList, "hello".toList]).2.2.2.2.2⟩

/-! ## Lemmas and claim theorems: progress classification -/

theorem levelOfChar_eq (m : List WKSubject) (s : WKSubject) (hs : s ∈ m)
    (hinj : ∀ s₁ ∈ m, ∀ s₂ ∈ m, s₁.characters = s₂.characters →
      s₁.level = s₂.level) :
    levelOfChar m s.characters = s.level := by
  unfold levelOfChar
  cases hfind : m.find? (fun x => x.characters == s.characters) with
  | none =>
    exfalso
    have := List.find?_eq_none.mp hfind s hs
    simp at this
  | some s2 =>
    have hmem := List.mem_of_find?_eq_some hfind
    have hchars : s2.characters = s.characters := by
      have := List.find?_some hfind
      simpa using this
    exact hinj s2 hmem s hs hchars

theorem classifier_pairs_eq (t : Nat) (m : List WKSubject)
    (hinj : ∀ s₁ ∈ m, ∀ s₂ ∈ m, s₁.characters = s₂.characters →
      s₁.level = s₂.level) :
    ∀ (assignments : List WKAssignment),
      (assignments.filterMap (classifyAssignment t m)).map
        (fun cs => (cs, levelOfChar m cs)) =
      assignments.filterMap (fun a =>
        match mapGetSubject m a.subject_id with
        | none => none
        | some s =>
          if s.object = kanjiKind then
            (if t ≤ a.srs_stage then some (s.characters, s.level) else none)
          else none) := by
  intro assignments
  induction assignments with
  | nil => rfl
  | cons a rest ih =>
    rw [List.filterMap_cons, List.filterMap_cons]
    cases hget : mapGetSubject m a.subject_id with
    | none => simpa [classifyAssignment, hget] using ih
    | some s =>
      have hsmem : s ∈ m := List.mem_of_find?_eq_some hget
      by_cases hobj : s.object = kanjiKind
      · by_cases hstage : t ≤ a.srs_stage
        · simp only [classifyAssignment, hget, if_pos hobj, if_pos hstage,
            List.map_cons, ih]
          rw [levelOfChar_eq m s hsmem hinj]
        · simpa [classifyAssignment, hget, hobj, hstage] using ih
      · simpa [classifyAssignment, hget, hobj] using ih

/-- C2 counterexample: with two kanji subjects sharing the characters
string `X` at different levels, the handler sorts by the level of the first
matching subject in the map rather than by the assignment's subject's
level, so the output is not sorted ascending by subject level. -/
theorem c2_progress_classifier_counterexample :
    progressClassifier 5 [⟨2, 5⟩, ⟨3, 5⟩]
      [⟨1, "kanji".toList, "X".toList, 5⟩, ⟨2, "kanji".toList, "X".toList, 1⟩,
        ⟨3, "kanji".toList, "Y".toList, 3⟩] = ["Y".toList, "X".toList] ∧
    claimedClassifier 5 [⟨2, 5⟩, ⟨3, 5⟩]
      [⟨1, "kanji".toList, "X".toList, 5⟩, ⟨2, "kanji".toList, "X".toList, 1⟩,
        ⟨3, "kanji".toList, "Y".toList, 3⟩] = ["X".toList, "Y".toList] ∧
    (["Y".toList, "X".toList] : List (List Char)) ≠ ["X".toList, "Y".toList] := by
  refine ⟨by decide, by decide, by decide⟩

/-- C2 amended: provided no two subjects in the subject map share a
characters string at different levels (the spec flags homographs as an
unspecified edge case), the handler outputs exactly the characters of
kanji-kind subjects whose assignment's srs_stage is at least `t`
(assignments with absent or non-kanji subjects discarded), stably sorted
ascending by subject level; no qualifying assignment yields the empty list
as an ordinary success value. -/
theorem c2_progress_classifier_amended (t : Nat)
    (assignments : List WKAssignment) (subjects : List WKSubject)
    (hinj : ∀ s₁ ∈ buildSubjectMap subjects, ∀ s₂ ∈ buildSubjectMap subjects,
      s₁.characters = s₂.characters → s₁.level = s₂.level) :
    progressClassifier t assignments subjects =
      claimedClassifier t assignments subjects ∧
    (assignments.filterMap (classifyAssignment t (buildSubjectMap subjects)) = [] →
      progressClassifier t assignments subjects = []) := by
  constructor
  · show List.map Prod.fst (List.insertionSort levelLe
      (List.map (fun cs => (cs, levelOfChar (buildSubjectMap subjects) cs))
        (List.filterMap (classifyAssignment t (buildSubjectMap subjects))
          assignments))) = _
    rw [classifier_pairs_eq t (buildSubjectMap subjects) hinj assignments]
    rfl
  · intro h
    show List.map Prod.fst (List.insertionSort levelLe
      (List.map (fun cs => (cs, levelOfChar (buildSubjectMap subjects) cs))
        (List.filterMap (classifyAssignment t (buildSubjectMap subjects))
          assignments))) = []
    rw [h]
    rfl

/-- Witness for C2-amended on a two-subject fixture with distinct
characters: output sorted ascending by subject level, and the empty fixture
yields the empty success value. -/
theorem c2_progress_classifier_amended_witness :
    progressClassifier 5 [⟨1, 6⟩, ⟨2, 5⟩]
      [⟨1, "kanji".toList, "A".toList, 9⟩, ⟨2, "kanji".toList, "B".toList, 2⟩] =
      claimedClassifier 5 [⟨1, 6⟩, ⟨2, 5⟩]
        [⟨1, "kanji".toList, "A".toList, 9⟩, ⟨2, "kanji".toList, "B".toList, 2⟩] ∧
    progressClassifier 7 [⟨1, 3⟩] [⟨1, "kanji".toList, "A".toList, 9⟩] = [] := by
  refine ⟨(c2_progress_classifier_amended 5 [⟨1, 6⟩, ⟨2, 5⟩]
      [⟨1, "kanji".toList, "A".toList, 9⟩, ⟨2, "kanji".toList, "B".toList, 2⟩]
      (by decide)).1,
    (c2_progress_classifier_amended 7 [⟨1, 3⟩]
      [⟨1, "kanji".toList, "A".toList, 9⟩] (by decide)).2 (by decide)⟩

/-! ## Lemmas and claim theorem: retrying API client -/

theorem retryGo_success {env : Nat → Option Nat} {mr att fuel s : Nat}
    (h : env att = some s) (hok : 200 ≤ s ∧ s ≤ 299) :
    retryGo env mr att (fuel + 1) = ⟨true, s, 1⟩ := by
  rw [retryGo, h]
  dsimp only
  rw [if_pos hok]

theorem retryGo_fail4xx {env : Nat → Option Nat} {mr att fuel s : Nat}
    (h : env att = some s) (hnok : ¬(200 ≤ s ∧ s ≤ 299))
    (h4 : 400 ≤ s ∧ s < 500 ∧ s ≠ 429) :
    retryGo env mr att (fuel + 1) = ⟨false, s, 1⟩ := by
  rw [retryGo, h]
  dsimp only
  rw [if_neg hnok, if_pos h4]

theorem retryGo_retry {env : Nat → Option Nat} {mr att fuel s : Nat}
    (h : env att = some s) (hnok : ¬(200 ≤ s ∧ s ≤ 299))
    (h4 : ¬(400 ≤ s ∧ s < 500 ∧ s ≠ 429)) (hlt : att < mr) :
    retryGo env mr att (fuel + 1) =
      ⟨(retryGo env mr (att + 1) fuel).ok,
        (retryGo env mr (att + 1) fuel).status,
        (retryGo env mr (att + 1) fuel).calls + 1⟩ := by
  rw [retryGo, h]
  dsimp only
  rw [if_neg hnok, if_neg h4, if_pos hlt]

theorem retryGo_last {env : Nat → Option Nat} {mr att fuel s : Nat}
    (h : env att = some s) (hnok : ¬(200 ≤ s ∧ s ≤ 299))
    (h4 : ¬(400 ≤ s ∧ s < 500 ∧ s ≠ 429)) (hge : ¬att < mr) :
    retryGo env mr att (fuel + 1) = ⟨false, s, 1⟩ := by
  rw [retryGo, h]
  dsimp only
  rw [if_neg hnok, if_neg h4, if_neg hge]

theorem retryGo_exn_retry {env : Nat → Option Nat} {mr att fuel : Nat}
    (h : env att = none) (hlt : att < mr) :
    retryGo env mr att (fuel + 1) =
      ⟨(retryGo env mr (att + 1) fuel).ok,
        (retryGo env mr (att + 1) fuel).status,
        (retryGo env mr (att + 1) fuel).calls + 1⟩ := by
  rw [retryGo, h]
  dsimp only
  rw [if_pos hlt]

theorem retryGo_exn_last {env : Nat → Option Nat} {mr att fuel : Nat}
    (h : env att = none) (hge : ¬att < mr) :
    retryGo env mr att (fuel + 1) = ⟨false, 0, 1⟩ := by
  rw [retryGo, h]
  dsimp only
  rw [if_neg hge]

/-- C3: with `maxRetries = 2`, a 429 answered by a 200 on the second attempt
returns `ok = true` with exactly 2 requests issued; a 404 on the first
attempt returns `ok = false` with exactly 1 request (no retry); and when
every attempt is a transport failure, 5xx, or 429, the call returns a
failure result value (having used all 3 attempts) rather than throwing. -/
theorem c3_retrying_client (env : Nat → Option Nat) :
    (env 0 = some 429 → env 1 = some 200 →
      callVeniceWithRetry env 2 = ⟨true, 200, 2⟩) ∧
    (env 0 = some 404 → callVeniceWithRetry env 2 = ⟨false, 404, 1⟩) ∧
    ((∀ i, i ≤ 2 → retryableOutcome (env i)) →
      (callVeniceWithRetry env 2).ok = false ∧
      (callVeniceWithRetry env 2).calls = 3) := by
  refine ⟨?_, ?_, ?_⟩
  · intro h0 h1
    have hmid : retryGo env 2 1 (1 + 1) = ⟨true, 200, 1⟩ :=
      retryGo_success h1 (by omega)
    calc callVeniceWithRetry env 2 = retryGo env 2 0 (2 + 1) := rfl
      _ = ⟨(retryGo env 2 1 2).ok, (retryGo env 2 1 2).status,
            (retryGo env 2 1 2).calls + 1⟩ :=
        retryGo_retry h0 (by omega) (by omega) (by omega)
      _ = ⟨true, 200, 2⟩ := by rw [show (2 : Nat) = 1 + 1 from rfl, hmid]
  · intro h0
    calc callVeniceWithRetry env 2 = retryGo env 2 0 (2 + 1) := rfl
      _ = ⟨false, 404, 1⟩ := retryGo_fail4xx h0 (by omega) (by omega)
  · intro hr
    have e0 := hr 0 (by omega)
    have e1 := hr 1 (by omega)
    have e2 := hr 2 (by omega)
    have hlast : retryGo env 2 2 (0 + 1) = ⟨false, (retryGo env 2 2 1).status, 1⟩ := by
      rcases e2 with h | ⟨s, hs, hcls⟩
      · rw [retryGo_exn_last h (by omega)]
      · rw [retryGo_last hs (by rcases hcls with h2 | h2 <;> omega)
          (by rcases hcls with h2 | h2 <;> omega) (by omega)]
    have hmid : retryGo env 2 1 (1 + 1) =
        ⟨(retryGo env 2 2 1).ok, (retryGo env 2 2 1).status,
          (retryGo env 2 2 1).calls + 1⟩ := by
      rcases e1 with h | ⟨s, hs, hcls⟩
      · exact retryGo_exn_retry h (by omega)
      · exact retryGo_retry hs (by rcases hcls with h2 | h2 <;> omega)
          (by rcases hcls with h2 | h2 <;> omega) (by omega)
    have htop : callVeniceWithRetry env 2 =
        ⟨(retryGo env 2 1 2).ok, (retryGo env 2 1 2).status,
          (retryGo env 2 1 2).calls + 1⟩ := by
      rcases e0 with h | ⟨s, hs, hcls⟩
      · exact retryGo_exn_retry h (by omega)
      · exact retryGo_retry hs (by rcases hcls with h2 | h2 <;> omega)
          (by rcases hcls with h2 | h2 <;> omega) (by omega)
    have hl : retryGo env 2 2 1 = ⟨false, (retryGo env 2 2 1).status, 1⟩ := hlast
    rw [htop, show (2 : Nat) = 1 + 1 from rfl, hmid, hl]
    exact ⟨rfl, rfl⟩

/-- Witness for C3: concrete upstreams realizing the 429-then-200, 404, and
always-503 scenarios. -/
theorem c3_retrying_client_witness :
    callVeniceWithRetry (fun i => if i = 0 then some 429 else some 200) 2 =
      ⟨true, 200, 2⟩ ∧
    callVeniceWithRetry (fun _ => some 404) 2 = ⟨false, 404, 1⟩ ∧
    (callVeniceWithRetry (fun _ => some 503) 2).ok = false := by
  refine ⟨(c3_retrying_client _).1 rfl rfl, (c3_retrying_client _).2.1 rfl,
    ((c3_retrying_client (fun _ => some 503)).2.2 ?_).1⟩
  intro i _
  exact Or.inr ⟨503, rfl, Or.inl (by omega)⟩

/-! ## Lemmas and claim theorem: paginated fetching -/

theorem fetchAllPagesGo_chain {α : Type} (fetch : List Char → WKPage α) :
    ∀ (pages : List (List α)) (url : List Char),
      isChain fetch url pages → pages ≠ [] →
      fetchAllPagesGo fetch pages.length url =
        some (Except.ok pages.flatten, pages.length) := by
  intro pages
  induction pages with
  | nil => intro url _ hne; exact absurd rfl hne
  | cons its rest ih =>
    intro url hchain _
    cases rest with
    | nil =>
      have hfetch : fetch url = ⟨200, its, none⟩ := hchain
      show fetchAllPagesGo fetch (0 + 1) url = _
      rw [fetchAllPagesGo, hfetch]
      dsimp only
      rw [if_pos (by omega : (200 : Nat) ≤ 200 ∧ (200 : Nat) ≤ 299)]
      simp
    | cons b rest2 =>
      obtain ⟨u2, hfetch, hchain2⟩ := hchain
      have ihh := ih u2 hchain2 (by simp)
      show fetchAllPagesGo fetch ((b :: rest2).length + 1) url = _
      rw [fetchAllPagesGo, hfetch]
      dsimp only
      rw [if_pos (by omega : (200 : Nat) ≤ 200 ∧ (200 : Nat) ≤ 299), ihh]
      simp [Except.map]

/-- C6: a chain of N success pages whose last locator is null yields the
concatenation of all pages' items in page order with exactly N requests
issued; a 401 response fails immediately with the invalid-API-key error and
any other non-success status fails immediately with a generic upstream
error, in both cases after a single request (no further requests). -/
theorem c6_paginated_fetcher {α : Type} (fetch : List Char → WKPage α)
    (url : List Char) (pages : List (List α)) :
    (isChain fetch url pages → pages ≠ [] →
      fetchAllPagesGo fetch pages.length url =
        some (Except.ok pages.flatten, pages.length)) ∧
    (∀ fuel, (fetch url).status = 401 →
      fetchAllPagesGo fetch (fuel + 1) url =
        some (Except.error WKFetchError.invalidKey, 1)) ∧
    (∀ fuel s, (fetch url).status = s → ¬(200 ≤ s ∧ s ≤ 299) → s ≠ 401 →
      fetchAllPagesGo fetch (fuel + 1) url =
        some (Except.error (WKFetchError.upstream s), 1)) := by
  refine ⟨fetchAllPagesGo_chain fetch pages url, ?_, ?_⟩
  · intro fuel hst
    rcases hq : fetch url with ⟨st, its, nx⟩
    rw [hq] at hst
    have hst2 : st = 401 := hst
    subst hst2
    rw [fetchAllPagesGo, hq]
    dsimp only
    rw [if_neg (by omega), if_pos rfl]
  · intro fuel s hst hnok h401
    rcases hq : fetch url with ⟨st, its, nx⟩
    rw [hq] at hst
    have hst2 : st = s := hst
    subst hst2
    rw [fetchAllPagesGo, hq]
    dsimp only
    rw [if_neg hnok, if_neg h401]

/-- Witness for C6: a concrete two-page chain, and a concrete 401 and 500
response, exercised through the theorem. -/
theorem c6_paginated_fetcher_witness :
    fetchAllPagesGo
      (fun u => if u = "a".toList then (⟨200, [1, 2], some ("b".toList)⟩ : WKPage Nat)
        else ⟨200, [3], none⟩) 2 ("a".toList) = some (Except.ok [1, 2, 3], 2) ∧
    fetchAllPagesGo (fun _ => (⟨401, [], none⟩ : WKPage Nat)) 1 ("a".toList) =
      some (Except.error WKFetchError.invalidKey, 1) ∧
    fetchAllPagesGo (fun _ => (⟨500, [], none⟩ : WKPage Nat)) 1 ("a".toList) =
      some (Except.error (WKFetchError.upstream 500), 1) := by
  refine ⟨?_, ?_, ?_⟩
  · have h := (c6_paginated_fetcher
      (fun u => if u = "a".toList then (⟨200, [1, 2], some ("b".toList)⟩ : WKPage Nat)
        else ⟨200, [3], none⟩) ("a".toList) [[1, 2], [3]]).1
      ⟨"b".toList, rfl, rfl⟩ (by simp)
    simpa using h
  · exact (c6_paginated_fetcher (fun _ => (⟨401, [], none⟩ : WKPage Nat))
      ("a".toList) []).2.1 0 rfl
  · exact (c6_paginated_fetcher (fun _ => (⟨500, [], none⟩ : WKPage Nat))
      ("a".toList) []).2.2 0 500 rfl (by omega) (by omega)

/-! ## Claim theorem: per-character enrichment -/

/-- C7: the kanji POST handler returns exactly one entry per requested
character, in request order with output length equal to input length; a
failing lookup (exception, non-success status, or absent result data)
yields the fixed placeholder entry at that position only; and each
position's entry depends only on that character's own lookup outcome, so
one character's failure never discards, reorders, or blocks the others. -/
theorem c7_enrichment_resolver (lookup : Char → LookupOutcome)
    (kanji : List Char) :
    (kanjiPostEntries lookup kanji).length = kanji.length ∧
    (∀ i : Nat, (kanjiPostEntries lookup kanji)[i]? =
      (kanji[i]?).map (fun c => resolveChar (lookup c) c)) ∧
    (∀ (i : Nat) (c : Char), kanji[i]? = some c →
      lookup c = LookupOutcome.exn →
      (kanjiPostEntries lookup kanji)[i]? =
        some ⟨c, [errLoadingDef], [errLoadingRead]⟩) ∧
    (∀ (i : Nat) (c : Char), kanji[i]? = some c →
      lookup c = LookupOutcome.notOk →
      (kanjiPostEntries lookup kanji)[i]? =
        some ⟨c, [defNotAvailable], [readNotAvailable]⟩) ∧
    (∀ (i : Nat) (c : Char), kanji[i]? = some c →
      lookup c = LookupOutcome.okData none →
      (kanjiPostEntries lookup kanji)[i]? =
        some ⟨c, [defNotAvailable], [readNotAvailable]⟩) ∧
    (∀ (lookup2 : Char → LookupOutcome) (i : Nat) (c : Char),
      kanji[i]? = some c → lookup c = lookup2 c →
      (kanjiPostEntries lookup kanji)[i]? =
        (kanjiPostEntries lookup2 kanji)[i]?) := by
  have hget : ∀ (lk : Char → LookupOutcome) (i : Nat),
      (kanjiPostEntries lk kanji)[i]? =
        (kanji[i]?).map (fun c => resolveChar (lk c) c) := by
    intro lk i
    rw [kanjiPostEntries, List.getElem?_map]
  refine ⟨List.length_map _ _, hget lookup, ?_, ?_, ?_, ?_⟩
  · intro i c hc hl
    rw [hget lookup i, hc, Option.map_some', hl]
    rfl
  · intro i c hc hl
    rw [hget lookup i, hc, Option.map_some', hl]
    rfl
  · intro i c hc hl
    rw [hget lookup i, hc, Option.map_some', hl]
    rfl
  · intro lookup2 i c hc hl
    rw [hget lookup i, hget lookup2 i, hc, Option.map_some', Option.map_some', hl]

/-- Witness for C7 on the spec example: one successful lookup and one that
throws, yielding two entries in order, the second made of placeholders. -/
theorem c7_enrichment_resolver_witness :
    (kanjiPostEntries
      (fun c => if c = Char.ofNat 0x4E5D
        then LookupOutcome.okData (some [⟨some [⟨some ["nine".toList]⟩],
          some [⟨some ("kyuu".toList)⟩]⟩])
        else LookupOutcome.exn)
      [Char.ofNat 0x4E5D, 'Z']).length = 2 ∧
    (kanjiPostEntries
      (fun c => if c = Char.ofNat 0x4E5D
        then LookupOutcome.okData (some [⟨some [⟨some ["nine".toList]⟩],
          some [⟨some ("kyuu".toList)⟩]⟩])
        else LookupOutcome.exn)
      [Char.ofNat 0x4E5D, 'Z'])[1]? =
      some ⟨'Z', [errLoadingDef], [errLoadingRead]⟩ := by
  refine ⟨(c7_enrichment_resolver _ _).1, ?_⟩
  exact (c7_enrichment_resolver
    (fun c => if c = Char.ofNat 0x4E5D
      then LookupOutcome.okData (some [⟨some [⟨some ["nine".toList]⟩],
        some [⟨some ("kyuu".toList)⟩]⟩])
      else LookupOutcome.exn)
    [Char.ofNat 0x4E5D, 'Z']).2.2.1 1 'Z' rfl (by decide)

/-! ## Claim theorems: source acquisition stripping -/

/-- C5 counterexample: on the model text `a <think> x` the claimed
transformation (remove paired blocks, then the unterminated opening
delimiter with its tail, and nothing else) yields `a ` with a trailing
space, but the stage returns the trimmed `a`, so the returned text is not
the literal model text with only the markup stripped. -/
theorem c5_source_strip_counterexample :
    acquireTopicSource ("a <think> x".toList) = Except.ok ("a".toList) ∧
    claimedStripThink ("a <think> x".toList) = "a ".toList ∧
    ("a".toList : List Char) ≠ "a ".toList := by
  refine ⟨rfl, rfl, by decide⟩

/-- C5 amended: the stage returns the model text with every paired
delimiter block removed and the result trimmed, then any unterminated
opening delimiter with everything after it removed and the result trimmed
again; an empty remainder is reported as the empty-content failure, and a
success never carries empty content. -/
theorem c5_source_strip_amended (t : List Char) :
    stripThink t = jsTrim (stripUnclosedThink (jsTrim (stripThinkPairs t))) ∧
    (stripThink t = [] → acquireTopicSource t = Except.error emptyNewsError) ∧
    (stripThink t ≠ [] → acquireTopicSource t = Except.ok (stripThink t)) ∧
    (∀ s, acquireTopicSource t = Except.ok s → s ≠ []) := by
  refine ⟨rfl, ?_, ?_, ?_⟩
  · intro h
    show (if (stripThink t).isEmpty then _ else _) = _
    rw [if_pos (by rw [h]; rfl)]
  · intro h
    show (if (stripThink t).isEmpty then _ else _) = _
    rw [if_neg (by simpa [List.isEmpty_iff] using h)]
  · intro s hok
    have hsplit : (stripThink t).isEmpty = true ∨
        acquireTopicSource t = Except.ok (stripThink t) := by
      by_cases h : (stripThink t).isEmpty = true
      · exact Or.inl h
      · refine Or.inr ?_
        show (if (stripThink t).isEmpty then _ else _) = _
        rw [if_neg h]
    rcases hsplit with h | h
    · exfalso
      have : acquireTopicSource t = Except.error emptyNewsError := by
        show (if (stripThink t).isEmpty then _ else _) = _
        rw [if_pos h]
      rw [this] at hok
      exact Except.noConfusion hok
    · rw [h] at hok
      have hs : stripThink t = s := by
        injection hok
      intro hempty
      rw [hempty] at hs
      have : acquireTopicSource t = Except.error emptyNewsError := by
        show (if (stripThink t).isEmpty then _ else _) = _
        rw [if_pos (by rw [hs]; rfl)]
      rw [this] at h
      exact Except.noConfusion h

/-- Witness for C5-amended: a markup-free text is returned verbatim as a
success, and a bare opening delimiter leaves nothing and fails. -/
theorem c5_source_strip_amended_witness :
    acquireTopicSource ("x".toList) = Except.ok (stripThink ("x".toList)) ∧
    acquireTopicSource ("<think>".toList) = Except.error emptyNewsError := by
  exact ⟨(c5_source_strip_amended ("x".toList)).2.2.1 (by decide),
    (c5_source_strip_amended ("<think>".toList)).2.1 (by decide)⟩

/-! ## Claim theorems: structured-output extraction -/

/-- C4 counterexample: on the input `hello, english: bye` every extraction
strategy fails, yet the returned primary value is `hello` — the raw input
with the trailing english-key artifact stripped — not the entire raw input
text as claimed. -/
theorem c4_extractor_counterexample :
    extractFields ("hello, english: bye".toList) = none ∧
    parseModelOutput ("hello, english: bye".toList) =
      (JValue.str ("hello".toList), JValue.str placeholderEnglishText) ∧
    ("hello".toList : List Char) ≠ "hello, english: bye".toList := by
  refine ⟨rfl, rfl, by decide⟩

/-- C4 amended: the combined extractor is total — it always returns a pair
and models every throw as caught; when every strategy fails the primary is
the raw input with JSON artifacts stripped and trimmed
(`cleanJsonArtifacts`), not the raw input verbatim, and the secondary is
the fixed placeholder; on success the secondary falls back to the
placeholder when falsy. -/
theorem c4_extractor_amended (raw : List Char) :
    (extractFields raw = none →
      parseModelOutput raw =
        (JValue.str (cleanJsonArtifacts raw), JValue.str placeholderEnglishText)) ∧
    (∀ jp en, extractFields raw = some (jp, en) →
      parseModelOutput raw =
        (jp, if jsTruthy en then en else JValue.str placeholderEnglishText)) := by
  constructor
  · intro h
    rw [parseModelOutput, h]
  · intro jp en h
    rw [parseModelOutput, h]

/-- Witness for C4-amended: the all-strategies-fail input takes the
cleaned-artifact path, and a clean JSON input takes the success path. -/
theorem c4_extractor_amended_witness :
    parseModelOutput ("hello, english: bye".toList) =
      (JValue.str (cleanJsonArtifacts ("hello, english: bye".toList)),
        JValue.str placeholderEnglishText) ∧
    parseModelOutput ("zz \"japanese\": \"ab\"".toList) =
      (JValue.str ("ab".toList),
        if jsTruthy (JValue.str []) then JValue.str []
        else JValue.str placeholderEnglishText) := by
  exact ⟨(c4_extractor_amended ("hello, english: bye".toList)).1 rfl,
    (c4_extractor_amended ("zz \"japanese\": \"ab\"".toList)).2
      (JValue.str ("ab".toList)) (JValue.str []) rfl⟩

end WK
